import Mathlib

/-!
# Verification of `transaction.go` (package `modsecurity`)

A shallow embedding of the Go type `transaction` and its methods, followed by
theorems about the intervention evaluator (`ShouldIntervene`, `ShouldIgnore`),
the logging phase (`ProcessLogging`), the body-append phases and the resource
lifecycle (`deferFree`, `Cleanup`).

Conventions of the embedding

* A Go `string` is a Lean `String`.  The only characters the code inspects are
  the ASCII characters of the pattern `regexIgnoreRule` and the separator
  `" "`; UTF-8 encodes every non-ASCII character with bytes `≥ 0x80`, so
  matching on characters and matching on bytes agree.
* A C pointer is a natural number (`Ptr`); a nil pointer is `none`.
* The engine (libmodsecurity) is a black box.  The value an engine call
  returns is a parameter of the operation that makes the call, and every
  foreign call the operation performs is appended to `CWorld.calls`.
* A Go `error` is `Option String` (`none` is `nil`); a run-time panic is the
  `Except.error` branch of the result.
* An integer handed to the engine is a mathematical integer; the conversions
  `C.int(n)` and `C.long(n)` wrap it to 32 and 64 bits, two's complement
  (`C_int`, `C_long`).
-/

namespace modsecurity

/-! ## Go library functions used by the source -/

/-- Fields of `s` delimited by the characters satisfying `sep`: one more field
than there are separators, empty fields kept; the empty input gives one empty
field. -/
def splitAtSep (sep : Char → Bool) : List Char → List (List Char)
  | [] => [[]]
  | c :: cs =>
    if sep c then [] :: splitAtSep sep cs
    else
      match splitAtSep sep cs with
      | [] => [[c]]
      | f :: fs => (c :: f) :: fs

/-- The separator test of `strings.Split(s, " ")`. -/
def isSpace (c : Char) : Bool := c == ' '

/-- Go `strings.Split(s, " ")`: the substrings of `s` between the single
space separators. -/
def strings_Split_space (s : String) : List String :=
  (splitAtSep isSpace s.data).map String.mk

/-- Consume the literal `lit` at the front of the input. -/
def matchLiteral : List Char → List Char → Option (List Char)
  | [], s => some s
  | _ :: _, [] => none
  | c :: cs, x :: xs => if c = x then matchLiteral cs xs else none

/-- The literal that opens `regexIgnoreRule`: `\[id \"`. -/
def ruleOpen : List Char := ['[', 'i', 'd', ' ', '"']

/-- The literal that closes `regexIgnoreRule`: `\"\]`. -/
def ruleClose : List Char := ['"', ']']

/-- Anchored match of `\[id \"(?P<rule>\d*)\"\]` at the front of the input;
the result is the text of the capture group `rule`.  `\d` is `[0-9]`.  The
star is greedy, and no shorter repetition can succeed where the longest one
fails, because the character after a shorter repetition is a digit and the
pattern continues with `"`. -/
def matchRuleHere (s : List Char) : Option (List Char) :=
  match matchLiteral ruleOpen s with
  | none => none
  | some r =>
    match matchLiteral ruleClose (r.dropWhile Char.isDigit) with
    | none => none
    | some _ => some (r.takeWhile Char.isDigit)

/-- Leftmost match of `regexIgnoreRule` in the input: the capture group of the
match that starts earliest. -/
def findRule : List Char → Option (List Char)
  | [] => matchRuleHere []
  | c :: cs =>
    match matchRuleHere (c :: cs) with
    | some d => some d
    | none => findRule cs

/-- Go `regexIgnoreRule.FindStringSubmatch(log)` for
`regexIgnoreRule = regexp.MustCompile("\[id \"(?P<rule>\d*)\"\]")`:
the slice `[whole match, group rule]` of the leftmost match, or the nil slice
when there is none. -/
def regexIgnoreRule_FindStringSubmatch (log : String) : List String :=
  match findRule log.data with
  | none => []
  | some d => [String.mk (ruleOpen ++ d ++ ruleClose), String.mk d]

/-! ## The foreign world -/

/-- A C pointer. -/
abbrev Ptr := Nat

/-- Go `C.int(n)`: the conversion to a 32-bit signed integer keeps the low 32
bits of `n`. -/
def C_int (n : Int) : Int := (n + 2147483648) % 4294967296 - 2147483648

/-- Go `C.long(n)`, a 64-bit signed integer where cgo builds this package
against libmodsecurity (LP64): the conversion keeps the low 64 bits of `n`. -/
def C_long (n : Int) : Int :=
  (n + 9223372036854775808) % 18446744073709551616 - 9223372036854775808

/-- The address `&v` of a Go variable `v` of type `*C.char`: what is passed is
the location of the variable, and `holds` is the pointer stored there. -/
structure GoVarAddr where
  holds : Ptr
  deriving DecidableEq

/-- The foreign calls the source makes through cgo.  The first argument of an
engine call is the handle `txn.msc_txn` it was given (`none` is nil). -/
inductive CCall where
  | CString (s : String) (p : Ptr)
  | free (p : Ptr)
  | msc_new_transaction_cgo (ms rules : Ptr) (logCbData : Int)
  | msc_process_connection (t : Option Ptr) (remote : Ptr) (remotePort : Int)
      (localIp : Ptr) (localPort : Int)
  | msc_process_uri (t : Option Ptr) (uri method httpVersion : Ptr)
  | msc_add_request_header (t : Option Ptr) (key value : Ptr)
  | msc_process_request_headers (t : Option Ptr)
  | msc_append_request_body (t : Option Ptr) (body : List Nat)
  | msc_process_request_body (t : Option Ptr)
  | msc_add_response_header (t : Option Ptr) (key value : Ptr)
  | msc_process_response_headers (t : Option Ptr) (code : Int) (httpVersion : GoVarAddr)
  | msc_append_response_body (t : Option Ptr) (body : List Nat)
  | msc_process_response_body (t : Option Ptr)
  | msc_process_logging (t : Option Ptr)
  | msc_intervention (t : Option Ptr)
  | msc_transaction_cleanup (t : Option Ptr)
  deriving DecidableEq

/-- State outside the Go heap: the next address `malloc` hands out and the
foreign calls made so far, oldest first. -/
structure CWorld where
  nextAddr : Ptr
  calls : List CCall
  deriving DecidableEq

/-- Record one foreign call. -/
def CWorld.call (w : CWorld) (c : CCall) : CWorld :=
  { w with calls := w.calls ++ [c] }

/-- Go `C.CString(s)`: a fresh C buffer holding a copy of `s`. -/
def CWorld.CString (w : CWorld) (s : String) : Ptr × CWorld :=
  (w.nextAddr, { nextAddr := w.nextAddr + 1, calls := w.calls ++ [CCall.CString s w.nextAddr] })

/-! ## The transaction -/

/-- Go `type transaction struct`. -/
structure transaction where
  IgnoreRules : String
  TransactionBypassed : Bool
  ForceLog : Bool
  BlockedBy : List String
  ruleset : Option Ptr
  msc_txn : Option Ptr
  itemsToFree : List Ptr
  deriving DecidableEq

/-- Go `error`: `none` is `nil`, `some msg` is `errors.New(msg)`. -/
abbrev GoError := Option String

/-- Go `func (txn *transaction) deferFree(addToList ...unsafe.Pointer)`. -/
def deferFree (txn : transaction) (addToList : List Ptr) : transaction :=
  { txn with itemsToFree := txn.itemsToFree ++ addToList }

/-- The type `RuleSet` is declared in another file of the package.
`NewTransaction` reads three values through it, `r.modsec.modsec`,
`r.msc_rules` and `r.modsec.logCallbackId`, and stores the pointer `r` itself;
these four are the parameters kept here. -/
structure RuleSet where
  self : Ptr
  modsec : Ptr
  msc_rules : Ptr
  logCallbackId : Int
  deriving DecidableEq

/-- Go `func (r *RuleSet) NewTransaction(remoteHost, remotePort, localHost, localPort)`.
`handle` is what `msc_new_transaction_cgo` returns and `ret` what
`msc_process_connection` returns. -/
def NewTransaction (r : RuleSet) (w : CWorld) (handle : Option Ptr) (ret : Int)
    (remoteHost : String) (remotePort : Int) (localHost : String) (localPort : Int) :
    Option transaction × GoError × CWorld :=
  let w0 := w.call
    (CCall.msc_new_transaction_cgo r.modsec r.msc_rules (C_long r.logCallbackId))
  match handle with
  | none => (none, some "Could not initialize transaction", w0)
  | some h =>
    let (cRemoteIp, w1) := w0.CString remoteHost
    let (cLocalIp, w2) := w1.CString localHost
    let w3 := w2.call
      (CCall.msc_process_connection (some h) cRemoteIp (C_int remotePort) cLocalIp
        (C_int localPort))
    if ret ≠ 1 then
      let w4 := w3.call (CCall.free cRemoteIp)
      let w5 := w4.call (CCall.free cLocalIp)
      (none, some "could not process connection", w5)
    else
      let txn : transaction :=
        { IgnoreRules := "", TransactionBypassed := false, ForceLog := false, BlockedBy := [],
          ruleset := some r.self, msc_txn := some h, itemsToFree := [] }
      (some (deferFree txn [cRemoteIp, cLocalIp]), none, w3)

/-- Go `func (txn *transaction) ProcessUri(uri, method, httpVersion string) error`. -/
def ProcessUri (txn : transaction) (w : CWorld) (ret : Int) (uri method httpVersion : String) :
    GoError × transaction × CWorld :=
  let (cUri, w1) := w.CString uri
  let (cMethod, w2) := w1.CString method
  let (cHttpVersion, w3) := w2.CString httpVersion
  let txn1 := deferFree txn [cUri, cMethod, cHttpVersion]
  let w4 := w3.call (CCall.msc_process_uri txn1.msc_txn cUri cMethod cHttpVersion)
  if ret ≠ 1 then (some "Could not process URI", txn1, w4)
  else (none, txn1, w4)

/-- Go `func (txn *transaction) AddRequestHeader(key, value string) error`. -/
def AddRequestHeader (txn : transaction) (w : CWorld) (ret : Int) (key value : String) :
    GoError × transaction × CWorld :=
  let (cKey, w1) := w.CString key
  let (cValue, w2) := w1.CString value
  let txn1 := deferFree txn [cKey, cValue]
  let w3 := w2.call (CCall.msc_add_request_header txn1.msc_txn cKey cValue)
  if ret ≠ 1 then (some "Could not add request header", txn1, w3)
  else (none, txn1, w3)

/-- Go `func (txn *transaction) ProcessRequestHeaders() error`. -/
def ProcessRequestHeaders (txn : transaction) (w : CWorld) (ret : Int) :
    GoError × transaction × CWorld :=
  let w1 := w.call (CCall.msc_process_request_headers txn.msc_txn)
  if ret ≠ 1 then (some "Could not process request headers", txn, w1)
  else (none, txn, w1)

/-- Go `func (txn *transaction) AppendRequestBody(body []byte) error`.
The argument `&body[0]` is evaluated before the call; indexing an empty slice
panics. -/
def AppendRequestBody (txn : transaction) (w : CWorld) (ret : Int) (body : List Nat) :
    Except String (GoError × transaction × CWorld) :=
  match body[0]? with
  | none => Except.error "runtime error: index out of range [0] with length 0"
  | some _ =>
    let w1 := w.call (CCall.msc_append_request_body txn.msc_txn body)
    if 1 ≠ ret then Except.ok (some "Could not append Request Body", txn, w1)
    else Except.ok (none, txn, w1)

/-- Go `func (txn *transaction) ProcessRequestBody() error`. -/
def ProcessRequestBody (txn : transaction) (w : CWorld) (ret : Int) :
    GoError × transaction × CWorld :=
  let w1 := w.call (CCall.msc_process_request_body txn.msc_txn)
  if ret ≠ 1 then (some "Could not process Request Body", txn, w1)
  else (none, txn, w1)

/-- Go `func (txn *transaction) AddResponseHeader(key, value string) error`. -/
def AddResponseHeader (txn : transaction) (w : CWorld) (ret : Int) (key value : String) :
    GoError × transaction × CWorld :=
  let (cKey, w1) := w.CString key
  let (cValue, w2) := w1.CString value
  let txn1 := deferFree txn [cKey, cValue]
  let w3 := w2.call (CCall.msc_add_response_header txn1.msc_txn cKey cValue)
  if ret ≠ 1 then (some "Could not add response header", txn1, w3)
  else (none, txn1, w3)

/-- Go `func (txn *transaction) ProcessResponseHeaders(code int, httpVersion string) error`.
The buffer `cHttpVersion` is allocated and handed to no `deferFree`; the engine
receives `C.int(code)` and `&cHttpVersion`, the address of the Go variable
that holds the buffer pointer. -/
def ProcessResponseHeaders (txn : transaction) (w : CWorld) (ret : Int) (code : Int)
    (httpVersion : String) : GoError × transaction × CWorld :=
  let cCode := C_int code
  let (cHttpVersion, w1) := w.CString httpVersion
  let w2 := w1.call
    (CCall.msc_process_response_headers txn.msc_txn cCode { holds := cHttpVersion })
  if ret ≠ 1 then (some "Could not process request headers", txn, w2)
  else (none, txn, w2)

/-- Go `func (txn *transaction) AppendResponseBody(body []byte) error`. -/
def AppendResponseBody (txn : transaction) (w : CWorld) (ret : Int) (body : List Nat) :
    Except String (GoError × transaction × CWorld) :=
  match body[0]? with
  | none => Except.error "runtime error: index out of range [0] with length 0"
  | some _ =>
    let w1 := w.call (CCall.msc_append_response_body txn.msc_txn body)
    if 1 ≠ ret then Except.ok (some "Could not append Response Body", txn, w1)
    else Except.ok (none, txn, w1)

/-- Go `func (txn *transaction) ProcessResponseBody() error`. -/
def ProcessResponseBody (txn : transaction) (w : CWorld) (ret : Int) :
    GoError × transaction × CWorld :=
  let w1 := w.call (CCall.msc_process_response_body txn.msc_txn)
  if ret ≠ 1 then (some "Could not process Response Body", txn, w1)
  else (none, txn, w1)

/-- Go `func (txn *transaction) ProcessLogging() error`. -/
def ProcessLogging (txn : transaction) (w : CWorld) (ret : Int) :
    GoError × transaction × CWorld :=
  if txn.TransactionBypassed then (none, txn, w)
  else
    let w1 := w.call (CCall.msc_process_logging txn.msc_txn)
    if ret ≠ 1 then (some "Could not Process Logging", txn, w1)
    else (none, txn, w1)

/-- The loop of `ShouldIgnore`: `for _, rule := range rules`. -/
def ShouldIgnore_range (logRule : String) : List String → Bool
  | [] => false
  | rule :: rules => if logRule = rule then true else ShouldIgnore_range logRule rules

/-- Go `func (txn *transaction) ShouldIgnore(logRule string) bool`. -/
def ShouldIgnore (txn : transaction) (logRule : String) : Bool :=
  let rules := strings_Split_space txn.IgnoreRules
  ShouldIgnore_range logRule rules

/-- Go `func (txn *transaction) ShouldIntervene() bool`.  `ret` is what
`msc_intervention` returns and `log` is `C.GoString(intervention.log)` of the
descriptor it filled in. -/
def ShouldIntervene (txn : transaction) (w : CWorld) (ret : Int) (log : String) :
    Bool × transaction × CWorld :=
  let w1 := w.call (CCall.msc_intervention txn.msc_txn)
  if ret = 0 then (false, txn, w1)
  else
    let logRules := regexIgnoreRule_FindStringSubmatch log
    if h : logRules.length = 2 then
      if txn.IgnoreRules ≠ "" ∧ ShouldIgnore txn logRules[1] = true then
        (false, { txn with TransactionBypassed := true }, w1)
      else
        (true, { txn with BlockedBy := txn.BlockedBy ++ [logRules[1]] }, w1)
    else (true, txn, w1)

/-- Go `func (txn *transaction) Cleanup()`. -/
def Cleanup (txn : transaction) (w : CWorld) : transaction × CWorld :=
  let w1 := w.call (CCall.msc_transaction_cleanup txn.msc_txn)
  let txn1 := { txn with msc_txn := none }
  (txn1, txn1.itemsToFree.foldl (fun acc freeMe => acc.call (CCall.free freeMe)) w1)

/-- A transaction as `NewTransaction` leaves it, with the given ignore list. -/
def txnWith (ignore : String) : transaction :=
  { IgnoreRules := ignore, TransactionBypassed := false, ForceLog := false, BlockedBy := [],
    ruleset := some 1, msc_txn := some 2, itemsToFree := [3, 4] }

/-- An empty foreign world. -/
def world0 : CWorld := { nextAddr := 10, calls := [] }

/-! ## Notions of the specification -/

/-- Occurrence of the pattern somewhere in a text. -/
def HasRuleToken (s : List Char) : Prop :=
  ∃ p d t, (∀ c ∈ d, c.isDigit = true) ∧ s = p ++ ruleOpen ++ d ++ ruleClose ++ t

/-- The text `x` holds `r` between two spaces. -/
def SpaceDelimited (r x : List Char) : Prop :=
  ∃ a b, x = a ++ ' ' :: (r ++ ' ' :: b)

/-- A string of decimal digits `0`..`9`, possibly empty. -/
def IsDigits (D : String) : Prop := ∀ c ∈ D.data, c.isDigit = true

instance IsDigits.decidable (D : String) : Decidable (IsDigits D) :=
  inferInstanceAs (Decidable (∀ c ∈ D.data, c.isDigit = true))

/-- The log text contains a bracketed token `[id "<digits>"]`. -/
def LogHasRuleId (log : String) : Prop :=
  ∃ P D S : String, IsDigits D ∧ log = P ++ "[id \"" ++ D ++ "\"]" ++ S

/-- The string `r` is an exact token of the space-delimited list `s`: `r` holds
no space, and in `s` it is bounded on each side by a space or by an end of
`s`. -/
def IsSpaceToken (r s : String) : Prop :=
  ' ' ∉ r.data ∧ ∃ a b : String, " " ++ s ++ " " = a ++ " " ++ r ++ " " ++ b

/-- Whitespace-delimited tokens of a string, in the words of the
specification: the maximal runs of characters that are not whitespace (space,
tab, carriage return, line feed). -/
def whitespaceTokens (s : String) : List String :=
  ((splitAtSep Char.isWhitespace s.data).filter (fun f => f ≠ [])).map String.mk

theorem matchLiteral_eq_some (lit s r : List Char) :
    matchLiteral lit s = some r ↔ s = lit ++ r := by
  induction lit generalizing s with
  | nil => simp [matchLiteral, eq_comm]
  | cons c cs ih =>
    cases s with
    | nil => simp [matchLiteral]
    | cons x xs =>
      by_cases hcx : c = x
      · subst hcx
        simp [matchLiteral, ih]
      · have hxc : ¬ x = c := fun h => hcx h.symm
        simp [matchLiteral, hcx, hxc]

theorem matchLiteral_eq_none (lit s : List Char) :
    matchLiteral lit s = none ↔ ∀ r, s ≠ lit ++ r := by
  constructor
  · intro h r hr
    have := (matchLiteral_eq_some lit s r).2 hr
    simp [h] at this
  · intro h
    cases hm : matchLiteral lit s with
    | none => rfl
    | some r => exact absurd ((matchLiteral_eq_some lit s r).1 hm) (h r)

theorem takeWhile_append_stop (p : Char → Bool) (l : List Char) (x : Char) (t : List Char)
    (hl : ∀ c ∈ l, p c = true) (hx : p x = false) :
    (l ++ x :: t).takeWhile p = l := by
  induction l with
  | nil => simp [List.takeWhile, hx]
  | cons a as ih =>
    have ha : p a = true := hl a (List.mem_cons_self a as)
    have has : ∀ c ∈ as, p c = true := fun c hc => hl c (List.mem_cons_of_mem a hc)
    simp [List.takeWhile, ha, ih has]

theorem dropWhile_append_stop (p : Char → Bool) (l : List Char) (x : Char) (t : List Char)
    (hl : ∀ c ∈ l, p c = true) (hx : p x = false) :
    (l ++ x :: t).dropWhile p = x :: t := by
  induction l with
  | nil => simp [List.dropWhile, hx]
  | cons a as ih =>
    have ha : p a = true := hl a (List.mem_cons_self a as)
    have has : ∀ c ∈ as, p c = true := fun c hc => hl c (List.mem_cons_of_mem a hc)
    simp [List.dropWhile, ha, ih has]

theorem mem_takeWhile_imp (p : Char → Bool) (l : List Char) :
    ∀ c ∈ l.takeWhile p, p c = true := by
  induction l with
  | nil => simp
  | cons a as ih =>
    intro c hc
    by_cases ha : p a = true
    · simp [List.takeWhile, ha] at hc
      rcases hc with rfl | hc
      · exact ha
      · exact ih c hc
    · simp [List.takeWhile, ha] at hc

/-- An anchored match succeeds with group `d` exactly when the input starts
with `[id "`, then the digits `d`, then `"]`. -/
theorem matchRuleHere_eq_some (s d : List Char) :
    matchRuleHere s = some d ↔
      (∀ c ∈ d, c.isDigit = true) ∧ ∃ t, s = ruleOpen ++ d ++ ruleClose ++ t := by
  constructor
  · intro h
    unfold matchRuleHere at h
    cases h1 : matchLiteral ruleOpen s with
    | none => simp [h1] at h
    | some r =>
      simp only [h1] at h
      cases h2 : matchLiteral ruleClose (r.dropWhile Char.isDigit) with
      | none => simp [h2] at h
      | some t =>
        simp only [h2, Option.some.injEq] at h
        subst h
        refine ⟨mem_takeWhile_imp _ r, t, ?_⟩
        have e1 := (matchLiteral_eq_some _ _ _).1 h1
        have e2 := (matchLiteral_eq_some _ _ _).1 h2
        have e3 := List.takeWhile_append_dropWhile Char.isDigit r
        rw [e1, List.append_assoc, List.append_assoc, ← e2, e3]
  · rintro ⟨hd, t, rfl⟩
    have hq : Char.isDigit '"' = false := by decide
    have h1 : matchLiteral ruleOpen (ruleOpen ++ d ++ ruleClose ++ t) = some (d ++ '"' :: ']' :: t) := by
      rw [matchLiteral_eq_some]
      simp [ruleClose]
    have h2 : matchLiteral ruleClose ('"' :: ']' :: t) = some t := by
      rw [matchLiteral_eq_some]
      simp [ruleClose]
    unfold matchRuleHere
    simp only [h1, dropWhile_append_stop _ d '"' _ hd hq, h2,
      takeWhile_append_stop _ d '"' _ hd hq]

theorem findRule_eq_none (s : List Char) : findRule s = none ↔ ¬ HasRuleToken s := by
  induction s with
  | nil =>
    constructor
    · intro h ⟨p, d, t, _, e⟩
      have : ([] : List Char).length = (p ++ ruleOpen ++ d ++ ruleClose ++ t).length := by rw [← e]
      simp [ruleOpen] at this
      omega
    · intro _
      cases hm : findRule [] with
      | none => rfl
      | some d =>
        have := (matchRuleHere_eq_some [] d).1 (by simpa [findRule] using hm)
        obtain ⟨_, t, e⟩ := this
        have : ([] : List Char).length = (ruleOpen ++ d ++ ruleClose ++ t).length := by rw [← e]
        simp [ruleOpen] at this
  | cons c cs ih =>
    constructor
    · intro h
      unfold findRule at h
      cases hm : matchRuleHere (c :: cs) with
      | some d => simp [hm] at h
      | none =>
        simp only [hm] at h
        rintro ⟨p, d, t, hd, e⟩
        cases p with
        | nil =>
          have := (matchRuleHere_eq_some (c :: cs) d).2 ⟨hd, t, by simpa using e⟩
          simp [hm] at this
        | cons x p' =>
          simp only [List.cons_append, List.cons.injEq] at e
          exact (ih.1 h) ⟨p', d, t, hd, e.2⟩
    · intro h
      unfold findRule
      cases hm : matchRuleHere (c :: cs) with
      | some d =>
        obtain ⟨hd, t, e⟩ := (matchRuleHere_eq_some _ d).1 hm
        exact absurd ⟨[], d, t, hd, by simpa using e⟩ h
      | none =>
        simp only
        apply ih.2
        rintro ⟨p, d, t, hd, e⟩
        exact h ⟨c :: p, d, t, hd, by simp [e]⟩

theorem findRule_of_matchRuleHere (s d : List Char) (h : matchRuleHere s = some d) :
    findRule s = some d := by
  cases s with
  | nil => simpa [findRule] using h
  | cons c cs => simp [findRule, h]

/-- A match that starts inside a prefix `p` of `p ++ '[' :: x` ends inside `p`:
the only `[` of a match is its first character. -/
theorem match_ends_within (p x m t : List Char) (hp : p ≠ []) (hm : '[' ∉ m)
    (e : p ++ '[' :: x = '[' :: m ++ t) : ∃ q, p = '[' :: m ++ q := by
  rcases List.append_eq_append_iff.1 e with ⟨a, ha, hb⟩ | ⟨c, hc, _⟩
  · cases a with
    | nil => exact ⟨[], by simpa using ha.symm⟩
    | cons y a' =>
      exfalso
      simp only [List.cons_append, List.cons.injEq] at hb
      obtain ⟨rfl, -⟩ := hb
      cases p with
      | nil => exact hp rfl
      | cons z p' =>
        simp only [List.cons_append, List.cons.injEq] at ha
        apply hm
        rw [ha.2]
        simp
  · exact ⟨c, hc⟩

theorem ruleOpen_match_shape (d : List Char) :
    ruleOpen ++ d ++ ruleClose = '[' :: (['i', 'd', ' ', '"'] ++ d ++ ruleClose) := by
  simp [ruleOpen]

theorem bracket_not_mem_match (d : List Char) (hd : ∀ c ∈ d, c.isDigit = true) :
    '[' ∉ ['i', 'd', ' ', '"'] ++ d ++ ruleClose := by
  intro h
  simp only [List.mem_append, ruleClose] at h
  rcases h with (h | h) | h
  · revert h; decide
  · have := hd _ h
    revert this; decide
  · revert h; decide

/-- The search returns the group of the first occurrence: if the text is
`p ++ [id "d"] ++ t` and the pattern does not occur in `p`, the group is `d`. -/
theorem findRule_leftmost (p d t : List Char) (hd : ∀ c ∈ d, c.isDigit = true)
    (hp : ¬ HasRuleToken p) : findRule (p ++ ruleOpen ++ d ++ ruleClose ++ t) = some d := by
  induction p with
  | nil =>
    apply findRule_of_matchRuleHere
    exact (matchRuleHere_eq_some _ d).2 ⟨hd, t, by simp⟩
  | cons c p' ih =>
    have hp' : ¬ HasRuleToken p' := by
      rintro ⟨q, d', t', hd', e⟩
      exact hp ⟨c :: q, d', t', hd', by simp [e]⟩
    have hnone : matchRuleHere (c :: p' ++ ruleOpen ++ d ++ ruleClose ++ t) = none := by
      cases hm : matchRuleHere (c :: p' ++ ruleOpen ++ d ++ ruleClose ++ t) with
      | none => rfl
      | some d' =>
        exfalso
        obtain ⟨hd', t', e⟩ := (matchRuleHere_eq_some _ d').1 hm
        have e' : (c :: p') ++ '[' :: (['i', 'd', ' ', '"'] ++ d ++ ruleClose ++ t) =
            '[' :: (['i', 'd', ' ', '"'] ++ d' ++ ruleClose) ++ t' := by
          rw [← ruleOpen_match_shape, ← e]
          simp [ruleOpen]
        obtain ⟨q, hq⟩ := match_ends_within (c :: p') _ _ t' (by simp)
          (bracket_not_mem_match d' hd') e'
        apply hp
        refine ⟨[], d', q, hd', ?_⟩
        rw [hq, ← ruleOpen_match_shape]
        simp
    have hstep : findRule (c :: p' ++ ruleOpen ++ d ++ ruleClose ++ t) =
        findRule (p' ++ ruleOpen ++ d ++ ruleClose ++ t) := by
      have : c :: p' ++ ruleOpen ++ d ++ ruleClose ++ t =
          c :: (p' ++ ruleOpen ++ d ++ ruleClose ++ t) := by simp
      rw [this] at hnone ⊢
      simp only [findRule, hnone]
    rw [hstep]
    exact ih hp'

/-! ## `strings.Split(s, " ")` -/

theorem splitAtSep_field (f : List Char) (hf : ' ' ∉ f) :
    splitAtSep isSpace f = [f] := by
  induction f with
  | nil => rfl
  | cons a f' ih =>
    have ha : a ≠ ' ' := fun h => hf (by simp [h])
    have hf' : ' ' ∉ f' := fun h => hf (List.mem_cons_of_mem a h)
    simp [splitAtSep, isSpace, ha, ih hf']

theorem splitAtSep_field_space (f rest : List Char) (hf : ' ' ∉ f) :
    splitAtSep isSpace (f ++ ' ' :: rest) = f :: splitAtSep isSpace rest := by
  induction f with
  | nil => simp [splitAtSep, isSpace]
  | cons a f' ih =>
    have ha : a ≠ ' ' := fun h => hf (by simp [h])
    have hf' : ' ' ∉ f' := fun h => hf (List.mem_cons_of_mem a h)
    simp [splitAtSep, isSpace, ha, ih hf']

theorem first_space_decompose (s : List Char) :
    ' ' ∉ s ∨ ∃ f rest, s = f ++ ' ' :: rest ∧ ' ' ∉ f := by
  induction s with
  | nil => left; simp
  | cons c cs ih =>
    by_cases hc : c = ' '
    · right
      exact ⟨[], cs, by simp [hc], by simp⟩
    · rcases ih with h | ⟨f, rest, e, hf⟩
      · left
        intro hmem
        rcases List.mem_cons.1 hmem with h' | h'
        · exact hc h'.symm
        · exact h h'
      · right
        refine ⟨c :: f, rest, by simp [e], ?_⟩
        intro hmem
        rcases List.mem_cons.1 hmem with h' | h'
        · exact hc h'.symm
        · exact hf h'

/-- Every space of `f ++ ' ' :: x`, with `f` free of spaces, is either the one
right after `f` or lies in `x`. -/
theorem first_space_cases (f x a z : List Char) (hf : ' ' ∉ f)
    (e : f ++ ' ' :: x = a ++ ' ' :: z) :
    (a = f ∧ z = x) ∨ ∃ k, a = f ++ ' ' :: k ∧ x = k ++ ' ' :: z := by
  induction f generalizing a with
  | nil =>
    cases a with
    | nil => left; simpa using e.symm
    | cons y k =>
      right
      simp only [List.nil_append, List.cons_append, List.cons.injEq] at e
      exact ⟨k, by simp [← e.1], e.2⟩
  | cons c f' ih =>
    have hc : c ≠ ' ' := fun h => hf (by simp [h])
    have hf' : ' ' ∉ f' := fun h => hf (List.mem_cons_of_mem c h)
    cases a with
    | nil =>
      simp only [List.nil_append, List.cons_append, List.cons.injEq] at e
      exact absurd e.1 hc
    | cons y a' =>
      simp only [List.cons_append, List.cons.injEq] at e
      rcases ih a' hf' e.2 with ⟨h1, h2⟩ | ⟨k, h1, h2⟩
      · left; exact ⟨by simp [h1, e.1], h2⟩
      · right; exact ⟨k, by simp [h1, e.1], h2⟩

theorem spaceDelimited_step (f r y : List Char) (hf : ' ' ∉ f) (hr : ' ' ∉ r) :
    SpaceDelimited r (' ' :: (f ++ ' ' :: y)) ↔ r = f ∨ SpaceDelimited r (' ' :: y) := by
  constructor
  · rintro ⟨a, b, e⟩
    cases a with
    | nil =>
      left
      simp only [List.nil_append, List.cons.injEq, true_and] at e
      rcases first_space_cases r b f y hr e.symm with ⟨h1, _⟩ | ⟨k, h1, _⟩
      · exact h1.symm
      · exact absurd (by simp [h1]) hf
    | cons c a' =>
      right
      simp only [List.cons_append, List.cons.injEq] at e
      rcases first_space_cases f y a' _ hf e.2 with ⟨_, h2⟩ | ⟨k, _, h2⟩
      · exact ⟨[], b, by simp [h2]⟩
      · exact ⟨' ' :: k, b, by simp [h2]⟩
  · rintro (rfl | ⟨a, b, e⟩)
    · exact ⟨[], y, by simp⟩
    · exact ⟨' ' :: (f ++ a), b, by simp [e]⟩

theorem not_spaceDelimited_single (r : List Char) : ¬ SpaceDelimited r [' '] := by
  rintro ⟨a, b, e⟩
  have := congrArg List.length e
  simp at this
  omega

/-- Membership among the fields of `strings.Split(s, " ")`, on character lists:
`r` is a field exactly when it holds no space and stands in `" " ++ s ++ " "`
between two spaces. -/
theorem mem_splitAtSep_space (r : List Char) :
    ∀ (n : Nat) (s : List Char), s.length ≤ n →
      (r ∈ splitAtSep isSpace s ↔ ' ' ∉ r ∧ SpaceDelimited r (' ' :: (s ++ [' ']))) := by
  intro n
  induction n with
  | zero =>
    intro s hs
    have : s = [] := List.length_eq_zero.1 (Nat.le_zero.1 hs)
    subst this
    have h0 := spaceDelimited_step [] r [] (by simp)
    simp only [List.nil_append] at h0
    constructor
    · intro h
      have hr : r = [] := by simpa [splitAtSep] using h
      subst hr
      exact ⟨by simp, (h0 (by simp)).2 (Or.inl rfl)⟩
    · rintro ⟨hr, h⟩
      rcases (h0 hr).1 h with h1 | h1
      · simp [splitAtSep, h1]
      · exact absurd h1 (not_spaceDelimited_single r)
  | succ n ih =>
    intro s hs
    rcases first_space_decompose s with hfree | ⟨f, rest, rfl, hf⟩
    · rw [splitAtSep_field s hfree]
      constructor
      · intro h
        have hr : r = s := by simpa using h
        subst hr
        exact ⟨hfree, (spaceDelimited_step r r [] hfree hfree).2 (Or.inl rfl)⟩
      · rintro ⟨hr, h⟩
        rcases (spaceDelimited_step s r [] hfree hr).1 h with h1 | h1
        · simp [h1]
        · exact absurd h1 (not_spaceDelimited_single r)
    · rw [splitAtSep_field_space f rest hf]
      have hlen : rest.length ≤ n := by
        simp at hs
        omega
      have e : ' ' :: (f ++ ' ' :: rest ++ [' ']) = ' ' :: (f ++ ' ' :: (rest ++ [' '])) := by simp
      rw [e, List.mem_cons, ih rest hlen]
      constructor
      · rintro (h | ⟨hr, h⟩)
        · subst h
          exact ⟨hf, (spaceDelimited_step r r _ hf hf).2 (Or.inl rfl)⟩
        · exact ⟨hr, (spaceDelimited_step f r _ hf hr).2 (Or.inr h)⟩
      · rintro ⟨hr, h⟩
        rcases (spaceDelimited_step f r _ hf hr).1 h with h1 | h1
        · exact Or.inl h1
        · exact Or.inr ⟨hr, h1⟩

/-! ## From character lists to strings -/

theorem ruleToken_data (P D S : String) :
    (P ++ "[id \"" ++ D ++ "\"]" ++ S).data =
      P.data ++ ruleOpen ++ D.data ++ ruleClose ++ S.data := by
  simp only [String.data_append]
  rfl

theorem logHasRuleId_iff (log : String) : LogHasRuleId log ↔ HasRuleToken log.data := by
  constructor
  · rintro ⟨P, D, S, hD, rfl⟩
    exact ⟨P.data, D.data, S.data, hD, ruleToken_data P D S⟩
  · rintro ⟨p, d, t, hd, e⟩
    refine ⟨String.mk p, String.mk d, String.mk t, hd, ?_⟩
    apply String.ext
    rw [ruleToken_data, e]

theorem FindStringSubmatch_of_no_token (log : String) (h : ¬ LogHasRuleId log) :
    regexIgnoreRule_FindStringSubmatch log = [] := by
  have : findRule log.data = none :=
    (findRule_eq_none _).2 (fun hh => h ((logHasRuleId_iff log).2 hh))
  simp [regexIgnoreRule_FindStringSubmatch, this]

theorem FindStringSubmatch_first_token (P D S : String) (hD : IsDigits D)
    (hP : ¬ LogHasRuleId P) :
    regexIgnoreRule_FindStringSubmatch (P ++ "[id \"" ++ D ++ "\"]" ++ S) =
      ["[id \"" ++ D ++ "\"]", D] := by
  have hfind : findRule (P ++ "[id \"" ++ D ++ "\"]" ++ S).data = some D.data := by
    rw [ruleToken_data]
    exact findRule_leftmost P.data D.data S.data hD
      (fun hh => hP ((logHasRuleId_iff P).2 hh))
  simp only [regexIgnoreRule_FindStringSubmatch, hfind]
  congr 1

/-! ## `ShouldIgnore` -/

theorem ShouldIgnore_range_iff (logRule : String) (rules : List String) :
    ShouldIgnore_range logRule rules = true ↔ logRule ∈ rules := by
  induction rules with
  | nil => simp [ShouldIgnore_range]
  | cons rule rest ih =>
    by_cases h : logRule = rule
    · simp [ShouldIgnore_range, h]
    · simp [ShouldIgnore_range, h, ih]

theorem mem_strings_Split_space (r s : String) :
    r ∈ strings_Split_space s ↔ r.data ∈ splitAtSep isSpace s.data := by
  unfold strings_Split_space
  rw [List.mem_map]
  constructor
  · rintro ⟨l, hl, rfl⟩
    exact hl
  · intro h
    exact ⟨r.data, h, rfl⟩

theorem isSpaceToken_iff (r s : String) :
    IsSpaceToken r s ↔ ' ' ∉ r.data ∧ SpaceDelimited r.data (' ' :: (s.data ++ [' '])) := by
  unfold IsSpaceToken
  apply and_congr Iff.rfl
  constructor
  · rintro ⟨a, b, e⟩
    refine ⟨a.data, b.data, ?_⟩
    have := congrArg String.data e
    simpa [String.data_append] using this
  · rintro ⟨a, b, e⟩
    refine ⟨String.mk a, String.mk b, ?_⟩
    apply String.ext
    simpa [String.data_append] using e

/-- The loop of `ShouldIgnore` answers true exactly for the fields of the
ignore list. -/
theorem ShouldIgnore_iff_token (txn : transaction) (r : String) :
    ShouldIgnore txn r = true ↔ IsSpaceToken r txn.IgnoreRules := by
  unfold ShouldIgnore
  rw [ShouldIgnore_range_iff, mem_strings_Split_space, isSpaceToken_iff]
  exact mem_splitAtSep_space r.data _ _ (Nat.le_refl _)

/-! ## `ShouldIntervene`, case by case -/

theorem ShouldIntervene_no_rule (txn : transaction) (w : CWorld) (ret : Int) (log : String)
    (hret : ret ≠ 0) (hlog : regexIgnoreRule_FindStringSubmatch log = []) :
    ShouldIntervene txn w ret log = (true, txn, w.call (CCall.msc_intervention txn.msc_txn)) := by
  simp [ShouldIntervene, hret, hlog]

theorem ShouldIntervene_rule (txn : transaction) (w : CWorld) (ret : Int) (log m r : String)
    (hret : ret ≠ 0) (hlog : regexIgnoreRule_FindStringSubmatch log = [m, r]) :
    ShouldIntervene txn w ret log =
      if txn.IgnoreRules ≠ "" ∧ ShouldIgnore txn r = true then
        (false, { txn with TransactionBypassed := true },
          w.call (CCall.msc_intervention txn.msc_txn))
      else
        (true, { txn with BlockedBy := txn.BlockedBy ++ [r] },
          w.call (CCall.msc_intervention txn.msc_txn)) := by
  simp [ShouldIntervene, hret, hlog]

theorem free_each_calls (items : List Ptr) (w : CWorld) :
    (items.foldl (fun acc freeMe => acc.call (CCall.free freeMe)) w).calls =
      w.calls ++ items.map CCall.free := by
  induction items generalizing w with
  | nil => simp
  | cons p ps ih =>
    rw [List.foldl_cons, ih]
    simp [CWorld.call]

theorem Cleanup_calls (txn : transaction) (w : CWorld) :
    (Cleanup txn w).2.calls =
      w.calls ++ [CCall.msc_transaction_cleanup txn.msc_txn] ++ txn.itemsToFree.map CCall.free := by
  unfold Cleanup
  simp only [free_each_calls]
  simp [CWorld.call]

theorem Cleanup_transaction (txn : transaction) (w : CWorld) :
    (Cleanup txn w).1 = { txn with msc_txn := none } := by
  simp [Cleanup]

/-! ## Resource tracking by the phase operations -/

/-- `ProcessUri` tracks its three buffers, whatever the engine answers. -/
theorem ProcessUri_tracks (txn : transaction) (w : CWorld) (ret : Int)
    (uri method httpVersion : String) :
    (ProcessUri txn w ret uri method httpVersion).2.1.itemsToFree =
      txn.itemsToFree ++ [w.nextAddr, w.nextAddr + 1, w.nextAddr + 2] := by
  unfold ProcessUri
  by_cases h : ret = 1 <;> simp [h, deferFree, CWorld.CString]

/-- `AddRequestHeader` tracks its two buffers, whatever the engine answers. -/
theorem AddRequestHeader_tracks (txn : transaction) (w : CWorld) (ret : Int)
    (key value : String) :
    (AddRequestHeader txn w ret key value).2.1.itemsToFree =
      txn.itemsToFree ++ [w.nextAddr, w.nextAddr + 1] := by
  unfold AddRequestHeader
  by_cases h : ret = 1 <;> simp [h, deferFree, CWorld.CString]

/-- `AddResponseHeader` tracks its two buffers, whatever the engine answers. -/
theorem AddResponseHeader_tracks (txn : transaction) (w : CWorld) (ret : Int)
    (key value : String) :
    (AddResponseHeader txn w ret key value).2.1.itemsToFree =
      txn.itemsToFree ++ [w.nextAddr, w.nextAddr + 1] := by
  unfold AddResponseHeader
  by_cases h : ret = 1 <;> simp [h, deferFree, CWorld.CString]

/-- `ProcessLogging` on a transaction that is not bypassed calls the engine once
and fails exactly when the engine does not answer 1. -/
theorem ProcessLogging_not_bypassed (txn : transaction) (w : CWorld) (ret : Int)
    (h : txn.TransactionBypassed = false) :
    (ProcessLogging txn w ret).2.2.calls = w.calls ++ [CCall.msc_process_logging txn.msc_txn] ∧
      ((ProcessLogging txn w ret).1 ≠ none ↔ ret ≠ 1) := by
  unfold ProcessLogging
  by_cases hr : ret = 1 <;> simp [h, hr, CWorld.call]

/-- The foreign calls of `ProcessResponseHeaders`: one allocation, then the
engine call with the wrapped status code and the address of the variable. -/
theorem ProcessResponseHeaders_calls (txn : transaction) (w : CWorld) (ret : Int)
    (code : Int) (httpVersion : String) :
    (ProcessResponseHeaders txn w ret code httpVersion).2.2.calls =
      w.calls ++ [CCall.CString httpVersion w.nextAddr,
        CCall.msc_process_response_headers txn.msc_txn (C_int code)
          { holds := w.nextAddr }] := by
  unfold ProcessResponseHeaders
  by_cases h : ret = 1 <;> simp [h, CWorld.CString, CWorld.call]

/-- The conversion `C.int` is the identity on 32-bit values and wraps
outside. -/
theorem C_int_examples :
    C_int 200 = 200 ∧ C_int (-1) = -1 ∧ C_int 4294967496 = 200 ∧
      C_int 2147483648 = -2147483648 := by
  decide

/-- A successful `NewTransaction` hands out a transaction that tracks the two
address buffers. -/
theorem NewTransaction_tracks (r : RuleSet) (w : CWorld) (h : Ptr)
    (remoteHost : String) (remotePort : Int) (localHost : String) (localPort : Int) :
    (NewTransaction r w (some h) 1 remoteHost remotePort localHost localPort).1 =
      some { IgnoreRules := "", TransactionBypassed := false, ForceLog := false,
             BlockedBy := [], ruleset := some r.self, msc_txn := some h,
             itemsToFree := [w.nextAddr, w.nextAddr + 1] } := by
  simp [NewTransaction, deferFree, CWorld.CString, CWorld.call]

/-! ## The claims -/

/-- Claim C1: when the engine reports an intervention (`ret ≠ 0`) whose log
is `P ++ [id "r"] ++ S` with `r` a digit string and no earlier token in `P`,
and `r` is a token of the non-empty space-delimited `IgnoreRules`, then
`ShouldIntervene` returns false, sets `TransactionBypassed` to true and leaves
`BlockedBy` exactly as it was. -/
theorem ShouldIntervene_ignored_rule_bypasses (txn : transaction) (w : CWorld) (ret : Int)
    (P r S : String) (hret : ret ≠ 0) (hr : IsDigits r) (hP : ¬ LogHasRuleId P)
    (hne : txn.IgnoreRules ≠ "") (htok : IsSpaceToken r txn.IgnoreRules) :
    (ShouldIntervene txn w ret (P ++ "[id \"" ++ r ++ "\"]" ++ S)).1 = false ∧
      (ShouldIntervene txn w ret (P ++ "[id \"" ++ r ++ "\"]" ++ S)).2.1.TransactionBypassed
        = true ∧
      (ShouldIntervene txn w ret (P ++ "[id \"" ++ r ++ "\"]" ++ S)).2.1.BlockedBy
        = txn.BlockedBy := by
  have hig : ShouldIgnore txn r = true := (ShouldIgnore_iff_token txn r).2 htok
  rw [ShouldIntervene_rule txn w ret _ _ r hret (FindStringSubmatch_first_token P r S hr hP)]
  simp [hne, hig]

/-- Claim C1 at `IgnoreRules = "100 200"` and a log holding `[id "200"]`, with
`BlockedBy` empty before and after. -/
theorem ShouldIntervene_ignored_rule_bypasses_witness :
    (ShouldIntervene (txnWith "100 200") world0 1 ("x " ++ "[id \"" ++ "200" ++ "\"]" ++ " y")).1
        = false ∧
      (ShouldIntervene (txnWith "100 200") world0 1
        ("x " ++ "[id \"" ++ "200" ++ "\"]" ++ " y")).2.1.TransactionBypassed = true ∧
      (ShouldIntervene (txnWith "100 200") world0 1
        ("x " ++ "[id \"" ++ "200" ++ "\"]" ++ " y")).2.1.BlockedBy = [] :=
  ShouldIntervene_ignored_rule_bypasses (txnWith "100 200") world0 1 "x " "200" " y"
    (by decide) (by decide)
    (fun h => (findRule_eq_none _).1 (by decide) ((logHasRuleId_iff _).1 h))
    (by decide) ⟨by decide, " 100", "", by decide⟩

/-- Claim C2: when `IgnoreRules` is the empty string and the engine reports an
intervention whose log yields the rule identifier `r` (any digit string, the
empty one included), `ShouldIntervene` returns true, `BlockedBy` becomes the
old list with `r` appended at the end, and `TransactionBypassed` is
unchanged. -/
theorem ShouldIntervene_empty_ignore_list_blocks (txn : transaction) (w : CWorld) (ret : Int)
    (P r S : String) (hret : ret ≠ 0) (hr : IsDigits r) (hP : ¬ LogHasRuleId P)
    (hempty : txn.IgnoreRules = "") :
    (ShouldIntervene txn w ret (P ++ "[id \"" ++ r ++ "\"]" ++ S)).1 = true ∧
      (ShouldIntervene txn w ret (P ++ "[id \"" ++ r ++ "\"]" ++ S)).2.1.BlockedBy
        = txn.BlockedBy ++ [r] ∧
      (ShouldIntervene txn w ret (P ++ "[id \"" ++ r ++ "\"]" ++ S)).2.1.TransactionBypassed
        = txn.TransactionBypassed := by
  rw [ShouldIntervene_rule txn w ret _ _ r hret (FindStringSubmatch_first_token P r S hr hP)]
  simp [hempty]

/-- Claim C2 at a log holding `[id "900"]`: `BlockedBy` goes from `[]` to
`["900"]`. -/
theorem ShouldIntervene_empty_ignore_list_blocks_witness :
    (ShouldIntervene (txnWith "") world0 1 ("x " ++ "[id \"" ++ "900" ++ "\"]" ++ " y")).1
        = true ∧
      (ShouldIntervene (txnWith "") world0 1
        ("x " ++ "[id \"" ++ "900" ++ "\"]" ++ " y")).2.1.BlockedBy = [] ++ ["900"] ∧
      (ShouldIntervene (txnWith "") world0 1
        ("x " ++ "[id \"" ++ "900" ++ "\"]" ++ " y")).2.1.TransactionBypassed = false :=
  ShouldIntervene_empty_ignore_list_blocks (txnWith "") world0 1 "x " "900" " y"
    (by decide) (by decide)
    (fun h => (findRule_eq_none _).1 (by decide) ((logHasRuleId_iff _).1 h))
    rfl

/-- Claim C3, as stated, fails: with `IgnoreRules = "100\t200"` (non-empty) the
rule ID `100` is a whitespace-delimited token of the list, and `ShouldIgnore`
answers false, because only the space character separates. -/
theorem ShouldIgnore_whitespace_token_counterexample :
    (txnWith "100\t200").IgnoreRules ≠ "" ∧
      "100" ∈ whitespaceTokens (txnWith "100\t200").IgnoreRules ∧
      ShouldIgnore (txnWith "100\t200") "100" = false := by
  decide

/-- Claim C3, amended: `ShouldIgnore ruleID` is true exactly when `ruleID` is
one of the fields that the single space character (and no other whitespace)
delimits in `IgnoreRules`: `ruleID` holds no space and is bounded in
`IgnoreRules` on each side by a space or an end of the string.  No substring,
prefix, wildcard or range matches; a field may be empty. -/
theorem ShouldIgnore_iff_space_token (txn : transaction) (ruleID : String) :
    ShouldIgnore txn ruleID = true ↔ IsSpaceToken ruleID txn.IgnoreRules :=
  ShouldIgnore_iff_token txn ruleID

/-- Claim C5, as stated, fails: the log `Access denied` holds no `[id "..."]`
token, the engine reports an intervention, and `ShouldIntervene` returns true
with `BlockedBy` still empty: no entry, sentinel or other, is appended. -/
theorem ShouldIntervene_no_sentinel_counterexample :
    ¬ LogHasRuleId "Access denied" ∧
      (ShouldIntervene (txnWith "") world0 1 "Access denied").1 = true ∧
      (ShouldIntervene (txnWith "") world0 1 "Access denied").2.1.BlockedBy = [] :=
  ⟨fun h => (findRule_eq_none _).1 (by decide) ((logHasRuleId_iff _).1 h), by decide, by decide⟩

/-- Claim C5, amended: when the engine reports an intervention whose log holds
no `[id "<digits>"]` token, `ShouldIntervene` returns true and leaves the
transaction as it was: nothing is appended to `BlockedBy` and
`TransactionBypassed` is not changed.  The only foreign call is the query. -/
theorem ShouldIntervene_unidentified_blocks (txn : transaction) (w : CWorld) (ret : Int)
    (log : String) (hret : ret ≠ 0) (hlog : ¬ LogHasRuleId log) :
    ShouldIntervene txn w ret log =
      (true, txn, w.call (CCall.msc_intervention txn.msc_txn)) :=
  ShouldIntervene_no_rule txn w ret log hret (FindStringSubmatch_of_no_token log hlog)

/-- Claim C5, amended, at the log `Access denied`. -/
theorem ShouldIntervene_unidentified_blocks_witness :
    ShouldIntervene (txnWith "100") world0 1 "Access denied" =
      (true, txnWith "100", world0.call (CCall.msc_intervention (txnWith "100").msc_txn)) :=
  ShouldIntervene_unidentified_blocks (txnWith "100") world0 1 "Access denied" (by decide)
    (fun h => (findRule_eq_none _).1 (by decide) ((logHasRuleId_iff _).1 h))

/-- Claim C6: for a log `P ++ [id "D"] ++ S` with `D` a string of decimal
digits and no match of the pattern in `P`, `regexIgnoreRule` yields the whole
token and the group `D`, and `D` is the value `ShouldIntervene` tests against
the ignore list and appends to `BlockedBy`. -/
theorem ShouldIntervene_recovers_rule_id (txn : transaction) (w : CWorld) (ret : Int)
    (P D S : String) (hret : ret ≠ 0) (hD : IsDigits D) (hP : ¬ LogHasRuleId P) :
    regexIgnoreRule_FindStringSubmatch (P ++ "[id \"" ++ D ++ "\"]" ++ S) =
        ["[id \"" ++ D ++ "\"]", D] ∧
      ShouldIntervene txn w ret (P ++ "[id \"" ++ D ++ "\"]" ++ S) =
        if txn.IgnoreRules ≠ "" ∧ ShouldIgnore txn D = true then
          (false, { txn with TransactionBypassed := true },
            w.call (CCall.msc_intervention txn.msc_txn))
        else
          (true, { txn with BlockedBy := txn.BlockedBy ++ [D] },
            w.call (CCall.msc_intervention txn.msc_txn)) :=
  ⟨FindStringSubmatch_first_token P D S hD hP,
    ShouldIntervene_rule txn w ret _ _ D hret (FindStringSubmatch_first_token P D S hD hP)⟩

/-- Claim C6 at a log holding `[id "12345"]`: the recovered identifier is
`12345`, and it is appended to `BlockedBy`. -/
theorem ShouldIntervene_recovers_rule_id_witness :
    regexIgnoreRule_FindStringSubmatch ("Denied " ++ "[id \"" ++ "12345" ++ "\"]" ++ " [msg]") =
        ["[id \"" ++ "12345" ++ "\"]", "12345"] ∧
      ShouldIntervene (txnWith "100 200") world0 1
          ("Denied " ++ "[id \"" ++ "12345" ++ "\"]" ++ " [msg]") =
        if (txnWith "100 200").IgnoreRules ≠ "" ∧
            ShouldIgnore (txnWith "100 200") "12345" = true then
          (false, { txnWith "100 200" with TransactionBypassed := true },
            world0.call (CCall.msc_intervention (txnWith "100 200").msc_txn))
        else
          (true, { txnWith "100 200" with
              BlockedBy := (txnWith "100 200").BlockedBy ++ ["12345"] },
            world0.call (CCall.msc_intervention (txnWith "100 200").msc_txn)) :=
  ShouldIntervene_recovers_rule_id (txnWith "100 200") world0 1 "Denied " "12345" " [msg]"
    (by decide) (by decide)
    (fun h => (findRule_eq_none _).1 (by decide) ((logHasRuleId_iff _).1 h))

/-- Claim C7, where the code departs from it: on a bypassed transaction with
`ForceLog = true`, `ProcessLogging` returns nil and makes no foreign call; the
flag `ForceLog` is never read. -/
theorem ProcessLogging_bypassed_skips_despite_ForceLog (txn : transaction) (w : CWorld)
    (ret : Int) :
    ProcessLogging { txn with TransactionBypassed := true, ForceLog := true } w ret =
      (none, { txn with TransactionBypassed := true, ForceLog := true }, w) := by
  simp [ProcessLogging]

/-- Claim C8, where the code departs from it: on a zero-length slice,
`AppendRequestBody` and `AppendResponseBody` stop with the index fault of
`body[0]` before any engine call; no error value is returned. -/
theorem AppendBody_empty_panics (txn : transaction) (w : CWorld) (ret : Int) :
    AppendRequestBody txn w ret [] =
        Except.error "runtime error: index out of range [0] with length 0" ∧
      AppendResponseBody txn w ret [] =
        Except.error "runtime error: index out of range [0] with length 0" := by
  simp [AppendRequestBody, AppendResponseBody]

/-- Claim C9, where the code departs from it: `Cleanup` nulls the engine
handle and keeps the list `itemsToFree`, so a second `Cleanup` calls
`msc_transaction_cleanup` on the nil handle and frees every tracked buffer a
second time. -/
theorem Cleanup_twice_frees_twice (txn : transaction) (w : CWorld) :
    (Cleanup txn w).1.msc_txn = none ∧
      (Cleanup txn w).1.itemsToFree = txn.itemsToFree ∧
      (Cleanup (Cleanup txn w).1 (Cleanup txn w).2).2.calls =
        w.calls ++ [CCall.msc_transaction_cleanup txn.msc_txn] ++
          txn.itemsToFree.map CCall.free ++
          [CCall.msc_transaction_cleanup none] ++ txn.itemsToFree.map CCall.free := by
  refine ⟨by simp [Cleanup], by simp [Cleanup], ?_⟩
  rw [Cleanup_calls, Cleanup_calls, Cleanup_transaction]

/-- Claim C10, where the code departs from it: `ProcessResponseHeaders`
allocates a C buffer for `httpVersion` and the list `itemsToFree` is the same
before and after the call, whatever the engine answers: the buffer is tracked
nowhere. -/
theorem ProcessResponseHeaders_tracks_nothing (txn : transaction) (w : CWorld) (ret : Int)
    (code : Int) (httpVersion : String) :
    (ProcessResponseHeaders txn w ret code httpVersion).2.1.itemsToFree = txn.itemsToFree ∧
      CCall.CString httpVersion w.nextAddr ∈
        (ProcessResponseHeaders txn w ret code httpVersion).2.2.calls := by
  unfold ProcessResponseHeaders
  by_cases h : ret = 1 <;> simp [h, CWorld.CString, CWorld.call]

end modsecurity
